import Mathlib

/-!
Shallow embedding of the tracked-memory subsystem of libvips
(`libvips/iofuncs/memory.c`): `vips_tracked_malloc`, `vips_tracked_free`,
the global accounting counters (`vips_tracked_allocs : int`,
`vips_tracked_mem : size_t`, `vips_tracked_mem_highwater : size_t`), and the
owner-scoped auto-free integration.

Modelling conventions:
* `size_t` is a 64-bit unsigned integer: values are natural numbers and every
  arithmetic step that the C abstract machine reduces modulo `2^64` is written
  with an explicit `% W` where `W = 2^64`.
* the C `int` counter `vips_tracked_allocs` is modelled as `Int` (its value
  stays far from the 32-bit bounds in every scenario considered here).
* the external byte allocator `g_try_malloc` is modelled by a boolean oracle
  `ok`: `true` means the allocator returned a block, `false` means it returned
  `NULL`.  The mutex makes each counter read-modify-write atomic, so the
  accounting effect of one call is a pure state transformer.
* a tracked block is represented by the content of its in-band header (the
  `size_t` stored at the 16 bytes preceding the payload pointer).
-/

namespace VipsMemory

/-- Width of `size_t` on the modelled LP64 platform: 64-bit arithmetic is
taken modulo `W = 2 ^ 64`. -/
def W : Nat := 2 ^ 64

/-- The header padding `vips_tracked_malloc` adds: `size += 16`. -/
def HEADER_SIZE : Nat := 16

/-- The global accounting state of `memory.c`: `vips_tracked_allocs` (a C
`int`), `vips_tracked_mem` (a `size_t`), `vips_tracked_mem_highwater`
(a `size_t`). -/
structure TrackedState where
  allocs : Int
  mem : Nat
  highwater : Nat
deriving Repr, DecidableEq

/-- The initial accounting state: all counters zero (the C statics start
at `0`). -/
def initState : TrackedState := ⟨0, 0, 0⟩

/-- A tracked block, represented by the content of its in-band header: the
`size_t` that `vips_tracked_malloc` stores at the 16 bytes preceding the
payload pointer (the total padded size of the block). -/
structure Block where
  header : Nat
deriving Repr, DecidableEq

/-- The reporting channel used for an allocation failure: `vips_error` or
`vips_warn`. -/
inductive Chan where
  | error
  | warning
deriving Repr, DecidableEq

/-- One report sent through the external reporting channel on allocation
failure: the channel, the domain string, and the size figure (in megabytes,
as the C message computes it from the already padded size). -/
structure Report where
  chan : Chan
  domain : String
  mbSize : Nat
deriving Repr, DecidableEq

/-- The defensive warnings `vips_tracked_free` can emit. -/
inductive FreeWarn where
  | tooManyFrees
  | tooMuchFree
deriving Repr, DecidableEq

/-- Embedding of `vips_tracked_free` (memory.c lines 213-238), given the
`size_t` read from the in-band header at `s - 16`.  In order: warn
"too many frees" if `vips_tracked_allocs <= 0`; subtract the stored size from
`vips_tracked_mem` (unsigned `size_t` arithmetic, hence modulo `W`); warn
"too much free" if the updated unsigned counter is `< 0` (the comparison the
C source writes); decrement `vips_tracked_allocs`.  The high-water mark is
not touched.  Returns the new state and the warnings emitted. -/
def vips_tracked_free (total : Nat) (st : TrackedState) :
    TrackedState × List FreeWarn :=
  let w1 : List FreeWarn :=
    if st.allocs ≤ 0 then [FreeWarn.tooManyFrees] else []
  let mem2 : Nat := (st.mem + (W - total % W)) % W
  let w2 : List FreeWarn :=
    if mem2 < 0 then [FreeWarn.tooMuchFree] else []
  (⟨st.allocs - 1, mem2, st.highwater⟩, w1 ++ w2)

/-- Embedding of `vips_tracked_malloc` (memory.c lines 272-320) without the
owner argument.  The C code does `size += 16` (unsigned `size_t` arithmetic,
hence modulo `W`, with no overflow check), calls `g_try_malloc(size)`
(modelled by the oracle `ok`); on failure it reports via `vips_error` and
`vips_warn` (both messages carry `size / (1024*1024)` of the padded size) and
returns `NULL`; on success it stores the padded size in the header, bumps
`vips_tracked_mem`, raises the high-water mark if exceeded, and increments
`vips_tracked_allocs`. -/
def vips_tracked_malloc (size0 : Nat) (ok : Bool) (st : TrackedState) :
    Option Block × TrackedState × List Report :=
  let size := (size0 + HEADER_SIZE) % W
  if ok then
    let mem2 := (st.mem + size) % W
    let hw2 := if st.highwater < mem2 then mem2 else st.highwater
    (some ⟨size⟩, ⟨st.allocs + 1, mem2, hw2⟩, [])
  else
    (none, st,
      [⟨Chan.error, "vips_tracked", size / (1024 * 1024)⟩,
       ⟨Chan.warning, "vips_tracked", size / (1024 * 1024)⟩])

/-- Embedding of `vips_tracked_get_mem`: returns `vips_tracked_mem`. -/
def vips_tracked_get_mem (st : TrackedState) : Nat := st.mem

/-- Embedding of `vips_tracked_get_mem_highwater`: returns
`vips_tracked_mem_highwater`. -/
def vips_tracked_get_mem_highwater (st : TrackedState) : Nat := st.highwater

/-- Embedding of `vips_tracked_get_allocs`: returns `vips_tracked_allocs`. -/
def vips_tracked_get_allocs (st : TrackedState) : Int := st.allocs

/-- Modelled from the spec: the owning-object lifecycle is external to
`memory.c` (`g_signal_connect(object, "postclose", vips_tracked_cb, buf)`
registers a callback on a `VipsObject`; the object system runs each
registered callback exactly once when the object is destroyed).  An owner is
represented by its list of registered cleanup callbacks, each recorded as the
header total of the block that `vips_tracked_cb` will hand to
`vips_tracked_free`. -/
structure Owner where
  callbacks : List Nat
deriving Repr, DecidableEq

/-- Embedding of `vips_tracked_malloc` with a non-`NULL` object argument:
after a successful allocation the callback `vips_tracked_cb` is registered on
the owner for the returned payload pointer; when the allocation failed the
function has already returned `NULL`, so nothing is registered. -/
def vips_tracked_malloc_owned (size0 : Nat) (ok : Bool) (o : Owner)
    (st : TrackedState) : Option Block × Owner × TrackedState :=
  match vips_tracked_malloc size0 ok st with
  | (some b, st2, _) => (some b, ⟨b.header :: o.callbacks⟩, st2)
  | (none, st2, _) => (none, o, st2)

/-- Modelled from the spec: destroying the owner fires every registered
callback exactly once; `vips_tracked_cb` calls `vips_tracked_free` on the
recorded block. -/
def destroyOwner (o : Owner) (st : TrackedState) : TrackedState :=
  o.callbacks.foldl (fun s t => (vips_tracked_free t s).1) st

/-- Total padded size of a list of requested sizes:
`Σ (s_i + HEADER_SIZE)`. -/
def loadOf (l : List Nat) : Nat := (l.map (fun s => s + HEADER_SIZE)).sum

/-- One operation of a client of the tracked allocator: a tracked allocation
of a requested size (with the allocator oracle outcome), or a tracked free of
the `i`-th currently live block. -/
inductive Op where
  | allocOp (size : Nat) (ok : Bool)
  | freeOp (i : Nat)
deriving Repr, DecidableEq

/-- The accounting state together with the headers of the currently live
tracked blocks (most recent first). -/
structure SysState where
  acc : TrackedState
  live : List Nat
deriving Repr, DecidableEq

/-- The initial system state: zero counters, no live blocks. -/
def initSys : SysState := ⟨initState, []⟩

/-- Run one client operation.  An allocation that fails leaves the live set
unchanged; a free of a non-existent index is a no-op (the trace language can
only free blocks that are actually live, matching proper use of the API). -/
def runOp (s : SysState) : Op → SysState
  | Op.allocOp size ok =>
    match vips_tracked_malloc size ok s.acc with
    | (some b, st2, _) => ⟨st2, b.header :: s.live⟩
    | (none, st2, _) => ⟨st2, s.live⟩
  | Op.freeOp i =>
    match s.live[i]? with
    | some total => ⟨(vips_tracked_free total s.acc).1, s.live.eraseIdx i⟩
    | none => s

/-- Run a list of client operations left to right. -/
def runOps (s : SysState) (ops : List Op) : SysState := ops.foldl runOp s

/-- A successful allocation is physically bounded: the live bytes plus the
new padded request stay below `2^64` (a real allocator cannot hand out more
address space than exists, so `g_try_malloc` would fail otherwise). -/
def safeOp (s : SysState) : Op → Bool
  | Op.allocOp size ok =>
    !ok || decide (s.live.sum + size + HEADER_SIZE < W)
  | Op.freeOp _ => true

/-- Every operation of the trace is physically bounded in the state where it
runs. -/
def safeTrace (s : SysState) : List Op → Bool
  | [] => true
  | op :: ops => safeOp s op && safeTrace (runOp s op) ops

/-- The accounting invariant tied to the live blocks: `vips_tracked_mem` is
the sum of the live headers, that sum has not wrapped, and the high-water
mark dominates the current bytes. -/
def Good (s : SysState) : Prop :=
  s.acc.mem = s.live.sum ∧ s.live.sum < W ∧ s.acc.mem ≤ s.acc.highwater

/-- The trace of `N` successful allocations of the given sizes, with no
frees. -/
def allocTrace (sizes : List Nat) : List Op :=
  sizes.map (fun s => Op.allocOp s true)

/-- One client thread of the concurrent model: the size it has allocated and
not yet freed (if any), and the sizes of its remaining allocate/free
pairs. -/
structure Thread where
  pending : Option Nat
  todo : List Nat
deriving Repr, DecidableEq

/-- The bytes currently held by a thread (the header total of its pending
block, `0` if none). -/
def pendingVal (th : Thread) : Nat := th.pending.getD 0

/-- The accounting state after a successful `vips_tracked_malloc` (the
second component of the embedding, discarding pointer and reports). -/
def allocAcc (size0 : Nat) (st : TrackedState) : TrackedState :=
  (vips_tracked_malloc size0 true st).2.1

/-- One interleaving step of the concurrent system: some thread either
performs the next successful allocation of its script, or frees its pending
block.  Because every counter read-modify-write in the C code happens with
`vips_tracked_mutex` held, the accounting effect of a whole call is atomic,
and any concurrent execution is one of these interleavings. -/
inductive CStep : List Thread × TrackedState → List Thread × TrackedState → Prop
  | allocStep (ts : List Thread) (st : TrackedState) (i s : Nat)
      (rest : List Nat) :
      ts[i]? = some ⟨none, s :: rest⟩ →
      CStep (ts, st)
        (ts.set i ⟨some ((s + HEADER_SIZE) % W), rest⟩, allocAcc s st)
  | freeStep (ts : List Thread) (st : TrackedState) (i t : Nat)
      (rest : List Nat) :
      ts[i]? = some ⟨some t, rest⟩ →
      CStep (ts, st) (ts.set i ⟨none, rest⟩, (vips_tracked_free t st).1)

/-- The initial thread pool for a list of per-thread size scripts. -/
def threadsOf (sizes : List (List Nat)) : List Thread :=
  sizes.map (fun l => ⟨none, l⟩)

/-- Total bytes a thread may still put into the accounting: its pending
block plus all of its remaining padded requests. -/
def tweight (th : Thread) : Nat := pendingVal th + loadOf th.todo

/-- Contribution of one thread to the live-allocation count. -/
def pcount (th : Thread) : Nat := if th.pending.isSome then 1 else 0

/-- Number of threads currently holding a pending block. -/
def pendCount (ts : List Thread) : Nat := (ts.map pcount).sum

/-- Invariant of the concurrent system: `vips_tracked_mem` is exactly the
bytes held by pending blocks, the total remaining weight is bounded by the
initial budget `B`, and `vips_tracked_allocs` counts the pending blocks. -/
def CInv (B : Nat) (p : List Thread × TrackedState) : Prop :=
  p.2.mem = (p.1.map pendingVal).sum ∧
  (p.1.map tweight).sum ≤ B ∧
  p.2.allocs = (pendCount p.1 : Int)

/-! Helper lemmas. -/

theorem W_pos : 0 < W := by decide

theorem mod_lt_W (n : Nat) : n % W < W := Nat.mod_lt _ W_pos

/-- Unsigned subtraction `a - b` modulo `W` agrees with truncated natural
subtraction when it does not underflow. -/
theorem modW_sub (a b : Nat) (hba : b ≤ a) (haW : a < W) :
    (a + (W - b % W)) % W = a - b := by
  have hbW : b < W := lt_of_le_of_lt hba haW
  have hb : b % W = b := Nat.mod_eq_of_lt hbW
  rw [hb]
  have h1 : a + (W - b) = (a - b) + W := by omega
  rw [h1, Nat.add_mod_right]
  exact Nat.mod_eq_of_lt (by omega)

/-- Adding `t` modulo `W` and then subtracting `t` modulo `W` returns to the
start when the start is in range. -/
theorem modW_add_sub_cancel (x t : Nat) (hx : x < W) (ht : t < W) :
    ((x + t) % W + (W - t % W)) % W = x := by
  have h1 : t % W = t := Nat.mod_eq_of_lt ht
  rw [h1, Nat.mod_add_mod]
  have h2 : x + t + (W - t) = x + W := by omega
  rw [h2, Nat.add_mod_right]
  exact Nat.mod_eq_of_lt hx

/-- Erasing the block at a valid index removes exactly its size from the
total. -/
theorem sum_eraseIdx_add (l : List Nat) :
    ∀ (i : Nat) (a : Nat), l[i]? = some a → (l.eraseIdx i).sum + a = l.sum := by
  induction l with
  | nil => intro i a h; simp at h
  | cons x xs ih =>
    intro i a h
    cases i with
    | zero =>
      simp only [List.getElem?_cons_zero, Option.some.injEq] at h
      subst h
      simp [List.eraseIdx]
      omega
    | succ n =>
      simp only [List.getElem?_cons_succ] at h
      have := ih n a h
      simp [List.eraseIdx]
      omega

/-- Effect of `List.set` at a valid index on a mapped sum, stated without
truncated subtraction. -/
theorem sum_map_set {α : Type} (f : α → Nat) (ts : List α) :
    ∀ (i : Nat) (a b : α), ts[i]? = some a →
      ((ts.set i b).map f).sum + f a = (ts.map f).sum + f b := by
  induction ts with
  | nil => intro i a b h; simp at h
  | cons x xs ih =>
    intro i a b h
    cases i with
    | zero =>
      simp only [List.getElem?_cons_zero, Option.some.injEq] at h
      subst h
      simp only [List.set_cons_zero, List.map_cons, List.sum_cons]
      omega
    | succ n =>
      simp only [List.getElem?_cons_succ] at h
      have := ih n a b h
      simp only [List.set_cons_succ, List.map_cons, List.sum_cons]
      omega

/-! Single-operation unfoldings of the trace semantics. -/

theorem runOp_alloc_true (s : SysState) (a : Nat) :
    runOp s (Op.allocOp a true) =
      ⟨⟨s.acc.allocs + 1, (s.acc.mem + (a + HEADER_SIZE) % W) % W,
        if s.acc.highwater < (s.acc.mem + (a + HEADER_SIZE) % W) % W then
          (s.acc.mem + (a + HEADER_SIZE) % W) % W
        else s.acc.highwater⟩,
       (a + HEADER_SIZE) % W :: s.live⟩ := rfl

theorem runOp_alloc_false (s : SysState) (a : Nat) :
    runOp s (Op.allocOp a false) = s := rfl

theorem loadOf_cons (a : Nat) (rest : List Nat) :
    loadOf (a :: rest) = a + HEADER_SIZE + loadOf rest := by
  simp [loadOf]

/-- Running a pure allocation trace adds the padded sizes to the byte counter
and the number of allocations to the allocation counter, relative to any
start state whose bytes stay in range. -/
theorem allocTrace_run (sizes : List Nat) :
    ∀ s : SysState, s.acc.mem + loadOf sizes < W →
      (runOps s (allocTrace sizes)).acc.mem = s.acc.mem + loadOf sizes ∧
      (runOps s (allocTrace sizes)).acc.allocs =
        s.acc.allocs + (sizes.length : Int) := by
  induction sizes with
  | nil =>
    intro s h
    simp [allocTrace, runOps, loadOf]
  | cons a rest ih =>
    intro s h
    rw [loadOf_cons] at h
    have hmem : (s.acc.mem + (a + HEADER_SIZE) % W) % W =
        s.acc.mem + (a + HEADER_SIZE) := by
      rw [Nat.mod_eq_of_lt (show a + HEADER_SIZE < W by omega)]
      exact Nat.mod_eq_of_lt (by omega)
    have hstep : runOps s (allocTrace (a :: rest)) =
        runOps (runOp s (Op.allocOp a true)) (allocTrace rest) := rfl
    have hmem1 : (runOp s (Op.allocOp a true)).acc.mem =
        s.acc.mem + (a + HEADER_SIZE) := by
      rw [runOp_alloc_true]
      exact hmem
    have hall1 : (runOp s (Op.allocOp a true)).acc.allocs =
        s.acc.allocs + 1 := by
      rw [runOp_alloc_true]
    have ih' := ih (runOp s (Op.allocOp a true)) (by rw [hmem1]; omega)
    rw [hstep]
    refine ⟨?_, ?_⟩
    · rw [ih'.1, hmem1, loadOf_cons]
      omega
    · rw [ih'.2, hall1]
      simp [List.length_cons]
      omega

/-- C1: starting from the all-zero accounting state, a sequence of `N`
successful tracked allocations of sizes `s_1 .. s_N` (zero sizes permitted)
with no intervening frees leaves `vips_tracked_get_mem()` equal to
`Σ (s_i + HEADER_SIZE)` with `HEADER_SIZE = 16`, and
`vips_tracked_get_allocs()` equal to `N`.  The hypothesis states that the
total padded demand stays below `2^64`, which is what makes every allocation
physically able to succeed. -/
theorem tracked_alloc_sequence_counters (sizes : List Nat)
    (h : loadOf sizes < W) :
    vips_tracked_get_mem (runOps initSys (allocTrace sizes)).acc =
      loadOf sizes ∧
    vips_tracked_get_allocs (runOps initSys (allocTrace sizes)).acc =
      (sizes.length : Int) := by
  have h0 : initSys.acc.mem + loadOf sizes < W := by
    simpa [initSys, initState] using h
  have hrun := allocTrace_run sizes initSys h0
  constructor
  · simpa [vips_tracked_get_mem, initSys, initState] using hrun.1
  · simpa [vips_tracked_get_allocs, initSys, initState] using hrun.2

/-- Witness for C1 at the concrete size sequence `[100, 0, 5]`. -/
theorem tracked_alloc_sequence_counters_witness :
    loadOf [100, 0, 5] < W ∧
    (vips_tracked_get_mem (runOps initSys (allocTrace [100, 0, 5])).acc =
        loadOf [100, 0, 5] ∧
      vips_tracked_get_allocs (runOps initSys (allocTrace [100, 0, 5])).acc =
        (([100, 0, 5] : List Nat).length : Int)) :=
  ⟨by decide, tracked_alloc_sequence_counters [100, 0, 5] (by decide)⟩

/-- C2: a successful tracked allocation of `n` bytes immediately followed by
a tracked free of the returned pointer brings `vips_tracked_get_mem()` and
`vips_tracked_get_allocs()` back exactly to their pre-allocation values; the
free subtracts exactly the total (header included) that the allocation
stored in the in-band header.  The hypothesis is the standing invariant that
the byte counter is in `size_t` range. -/
theorem tracked_alloc_free_roundtrip (n : Nat) (st : TrackedState)
    (h : vips_tracked_get_mem st < W) :
    ∃ b st1,
      vips_tracked_malloc n true st = (some b, st1, []) ∧
      vips_tracked_get_mem (vips_tracked_free b.header st1).1 =
        vips_tracked_get_mem st ∧
      vips_tracked_get_allocs (vips_tracked_free b.header st1).1 =
        vips_tracked_get_allocs st := by
  refine ⟨⟨(n + HEADER_SIZE) % W⟩, _, rfl, ?_, ?_⟩
  · show ((st.mem + (n + HEADER_SIZE) % W) % W +
        (W - ((n + HEADER_SIZE) % W) % W)) % W = st.mem
    exact modW_add_sub_cancel st.mem ((n + HEADER_SIZE) % W) h (mod_lt_W _)
  · show st.allocs + 1 - 1 = st.allocs
    omega

/-- Witness for C2 at `n = 100` from the initial state. -/
theorem tracked_alloc_free_roundtrip_witness :
    vips_tracked_get_mem initState < W ∧
    (∃ b st1,
      vips_tracked_malloc 100 true initState = (some b, st1, []) ∧
      vips_tracked_get_mem (vips_tracked_free b.header st1).1 =
        vips_tracked_get_mem initState ∧
      vips_tracked_get_allocs (vips_tracked_free b.header st1).1 =
        vips_tracked_get_allocs initState) :=
  ⟨by decide, tracked_alloc_free_roundtrip 100 initState (by decide)⟩

/-- One operation never lowers the high-water mark: allocation only raises
it (taking a maximum) and `vips_tracked_free` does not touch it. -/
theorem highwater_runOp_mono (s : SysState) (op : Op) :
    s.acc.highwater ≤ (runOp s op).acc.highwater := by
  cases op with
  | allocOp size ok =>
    cases ok
    · rw [runOp_alloc_false]
    · rw [runOp_alloc_true]
      dsimp only
      split
      · omega
      · exact le_refl _
  | freeOp i =>
    cases h : s.live[i]? with
    | none => simp [runOp, h]
    | some t => simp [runOp, h, vips_tracked_free]

/-- The high-water mark is non-decreasing along any run. -/
theorem highwater_runOps_mono (ops : List Op) :
    ∀ s : SysState, s.acc.highwater ≤ (runOps s ops).acc.highwater := by
  induction ops with
  | nil => intro s; exact le_refl _
  | cons op rest ih =>
    intro s
    exact le_trans (highwater_runOp_mono s op) (ih (runOp s op))

theorem good_initSys : Good initSys := by
  refine ⟨rfl, ?_, le_refl _⟩
  decide

/-- The accounting invariant is preserved by any physically bounded
operation. -/
theorem good_runOp (s : SysState) (op : Op) (hg : Good s)
    (hs : safeOp s op = true) : Good (runOp s op) := by
  obtain ⟨hmem, hsum, hhw⟩ := hg
  cases op with
  | allocOp size ok =>
    cases ok
    · rw [runOp_alloc_false]
      exact ⟨hmem, hsum, hhw⟩
    · have hlt : s.live.sum + size + HEADER_SIZE < W := by
        simpa [safeOp] using hs
      have hh : (size + HEADER_SIZE) % W = size + HEADER_SIZE :=
        Nat.mod_eq_of_lt (by omega)
      have hm2 : (s.acc.mem + (size + HEADER_SIZE) % W) % W =
          s.acc.mem + (size + HEADER_SIZE) := by
        rw [hh]
        exact Nat.mod_eq_of_lt (by omega)
      rw [runOp_alloc_true]
      refine ⟨?_, ?_, ?_⟩
      · dsimp only
        rw [hm2, List.sum_cons, hh, hmem]
        omega
      · dsimp only
        rw [List.sum_cons, hh]
        omega
      · dsimp only
        rw [hm2]
        split
        · omega
        · omega
  | freeOp i =>
    cases h : s.live[i]? with
    | none => simp only [runOp, h]; exact ⟨hmem, hsum, hhw⟩
    | some t =>
      have htmem : t ∈ s.live := List.getElem?_mem h
      have htle : t ≤ s.live.sum :=
        List.single_le_sum (fun x _ => Nat.zero_le x) t htmem
      have herase := sum_eraseIdx_add s.live i t h
      have hm2 : (s.acc.mem + (W - t % W)) % W = s.acc.mem - t :=
        modW_sub s.acc.mem t (by omega) (by omega)
      simp only [runOp, h]
      refine ⟨?_, ?_, ?_⟩
      · show (s.acc.mem + (W - t % W)) % W = (s.live.eraseIdx i).sum
        rw [hm2]
        omega
      · show (s.live.eraseIdx i).sum < W
        omega
      · show (s.acc.mem + (W - t % W)) % W ≤ s.acc.highwater
        rw [hm2]
        omega

/-- The accounting invariant is preserved along any physically bounded
trace. -/
theorem good_runOps (ops : List Op) :
    ∀ s : SysState, Good s → safeTrace s ops = true → Good (runOps s ops) := by
  induction ops with
  | nil => intro s hg _; exact hg
  | cons op rest ih =>
    intro s hg hs
    rw [safeTrace, Bool.and_eq_true] at hs
    exact ih (runOp s op) (good_runOp s op hg hs.1) hs.2

/-- A physically bounded trace stays physically bounded on a prefix, and the
suffix is bounded from the intermediate state. -/
theorem safeTrace_append (l1 l2 : List Op) :
    ∀ s : SysState, safeTrace s (l1 ++ l2) = true →
      safeTrace s l1 = true ∧ safeTrace (runOps s l1) l2 = true := by
  induction l1 with
  | nil =>
    intro s h
    exact ⟨rfl, h⟩
  | cons op rest ih =>
    intro s h
    rw [List.cons_append, safeTrace, Bool.and_eq_true] at h
    obtain ⟨h1, h2⟩ := ih (runOp s op) h.2
    refine ⟨?_, h2⟩
    rw [safeTrace, Bool.and_eq_true]
    exact ⟨h.1, h1⟩

theorem runOps_append (s : SysState) (l1 l2 : List Op) :
    runOps s (l1 ++ l2) = runOps (runOps s l1) l2 :=
  List.foldl_append runOp s l1 l2

/-- C3: across any physically bounded sequence of tracked allocate and free
operations from the initial state, the high-water mark returned by
`vips_tracked_get_mem_highwater()` is monotonically non-decreasing (stated
for an arbitrary prefix/suffix split of the sequence) and at every point is
at least `vips_tracked_get_mem()`. -/
theorem highwater_monotone_dominates (l1 l2 : List Op)
    (h : safeTrace initSys (l1 ++ l2) = true) :
    vips_tracked_get_mem_highwater (runOps initSys l1).acc ≤
      vips_tracked_get_mem_highwater (runOps initSys (l1 ++ l2)).acc ∧
    vips_tracked_get_mem (runOps initSys l1).acc ≤
      vips_tracked_get_mem_highwater (runOps initSys l1).acc := by
  obtain ⟨h1, _⟩ := safeTrace_append l1 l2 initSys h
  constructor
  · rw [runOps_append]
    exact highwater_runOps_mono l2 (runOps initSys l1)
  · exact (good_runOps l1 initSys good_initSys h1).2.2

/-- Witness for C3: allocate 100 bytes, then free it; split after the
allocation. -/
theorem highwater_monotone_dominates_witness :
    safeTrace initSys ([Op.allocOp 100 true] ++ [Op.freeOp 0]) = true ∧
    (vips_tracked_get_mem_highwater
        (runOps initSys [Op.allocOp 100 true]).acc ≤
      vips_tracked_get_mem_highwater
        (runOps initSys ([Op.allocOp 100 true] ++ [Op.freeOp 0])).acc ∧
    vips_tracked_get_mem (runOps initSys [Op.allocOp 100 true]).acc ≤
      vips_tracked_get_mem_highwater
        (runOps initSys [Op.allocOp 100 true]).acc) :=
  ⟨by decide,
   highwater_monotone_dominates [Op.allocOp 100 true] [Op.freeOp 0]
     (by decide)⟩

/-- The state part of `vips_tracked_free`, spelled out. -/
theorem free_state (total : Nat) (st : TrackedState) :
    (vips_tracked_free total st).1 =
      ⟨st.allocs - 1, (st.mem + (W - total % W)) % W, st.highwater⟩ := rfl

/-- The warnings of `vips_tracked_free`, spelled out: the unsigned byte
counter is never `< 0`, so only the "too many frees" branch can fire. -/
theorem free_warns (total : Nat) (st : TrackedState) :
    (vips_tracked_free total st).2 =
      if st.allocs ≤ 0 then [FreeWarn.tooManyFrees] else [] := by
  show (if st.allocs ≤ 0 then [FreeWarn.tooManyFrees] else []) ++
      (if (st.mem + (W - total % W)) % W < 0 then [FreeWarn.tooMuchFree]
        else []) = _
  rw [if_neg (Nat.not_lt_zero _), List.append_nil]

/-- C4 evaluated at the failing input: `vips_tracked_malloc` has no overflow
check on `size += 16`; requesting `SIZE_MAX = 2^64 - 1` bytes wraps the
padded size to 15 and, when the external allocator satisfies that tiny
request, the call succeeds with a 15-byte accounted block instead of
failing. -/
theorem overflow_wraps_to_small_alloc :
    vips_tracked_malloc (2 ^ 64 - 1) true initState =
      (some ⟨15⟩, ⟨1, 15, 15⟩, []) := by decide

/-- C5 evaluated at the failing input: freeing a block whose stored total
(17) exceeds the current byte counter (0, allocation count 0, as after one
1-byte allocation already freed once) underflows the unsigned subtraction —
the counter wraps to `2^64 - 17` — yet the "too much free" warning is NOT
emitted: only "too many frees" fires; the free still subtracts and
decrements. -/
theorem underflow_emits_no_too_much_free :
    (vips_tracked_free 17 ⟨0, 0, 17⟩).1 = ⟨-1, W - 17, 17⟩ ∧
    (vips_tracked_free 17 ⟨0, 0, 17⟩).2 = [FreeWarn.tooManyFrees] := by
  constructor
  · decide
  · decide

/-- C6: after one successful tracked allocation from the initial state,
freeing the returned pointer twice emits no warning on the first free, takes
the "too many frees" warning path on the second, and leaves
`vips_tracked_get_allocs()` at -1, not clamped. -/
theorem double_free_negative_count (n : Nat) :
    ∃ b st1,
      vips_tracked_malloc n true initState = (some b, st1, []) ∧
      (vips_tracked_free b.header st1).2 = [] ∧
      (vips_tracked_free b.header (vips_tracked_free b.header st1).1).2 =
        [FreeWarn.tooManyFrees] ∧
      vips_tracked_get_allocs
          (vips_tracked_free b.header (vips_tracked_free b.header st1).1).1 =
        -1 := by
  refine ⟨⟨(n + HEADER_SIZE) % W⟩, _, rfl, ?_, ?_, ?_⟩
  · rw [free_warns]
    norm_num [initState]
  · rw [free_warns, free_state]
    norm_num [initState]
  · rw [free_state, free_state]
    show (0 : Int) + 1 - 1 - 1 = -1
    norm_num

/-- C7: when the external allocator reports exhaustion (`g_try_malloc`
returns `NULL`), `vips_tracked_malloc` reports through both the error and
the warning channel, each report carrying the (padded) size in megabytes,
returns `NULL`, and leaves the accounting state untouched; the only abort
path in the source is a `g_assert` compiled in only with `DEBUG`, which is
undefined in normal builds, so the call returns normally. -/
theorem exhaustion_reported_both_channels (size0 : Nat) (st : TrackedState) :
    vips_tracked_malloc size0 false st =
      (none, st,
        [⟨Chan.error, "vips_tracked",
            ((size0 + HEADER_SIZE) % W) / (1024 * 1024)⟩,
         ⟨Chan.warning, "vips_tracked",
            ((size0 + HEADER_SIZE) % W) / (1024 * 1024)⟩]) := rfl

/-- C8: tracked allocation with an owner.  On failure no callback is
registered on the owner (the function returns `NULL` before the
`g_signal_connect`).  On success exactly one callback for the returned
payload is registered on a fresh owner, and destroying the owner (which
fires each registered callback once, invoking `vips_tracked_free` on the
block) returns `vips_tracked_get_allocs()` and `vips_tracked_get_mem()` to
their pre-allocation values without any explicit free. -/
theorem owner_callback_lifecycle (n : Nat) (st : TrackedState) (o : Owner)
    (h : vips_tracked_get_mem st < W) :
    vips_tracked_malloc_owned n false o st = (none, o, st) ∧
    ∃ b st1,
      vips_tracked_malloc_owned n true ⟨[]⟩ st = (some b, ⟨[b.header]⟩, st1) ∧
      vips_tracked_get_allocs (destroyOwner ⟨[b.header]⟩ st1) =
        vips_tracked_get_allocs st ∧
      vips_tracked_get_mem (destroyOwner ⟨[b.header]⟩ st1) =
        vips_tracked_get_mem st := by
  constructor
  · rfl
  · refine ⟨⟨(n + HEADER_SIZE) % W⟩, _, rfl, ?_, ?_⟩
    · show st.allocs + 1 - 1 = st.allocs
      omega
    · show ((st.mem + (n + HEADER_SIZE) % W) % W +
          (W - ((n + HEADER_SIZE) % W) % W)) % W = st.mem
      exact modW_add_sub_cancel st.mem ((n + HEADER_SIZE) % W) h (mod_lt_W _)

/-- Witness for C8 at `n = 1` from the initial state. -/
theorem owner_callback_lifecycle_witness :
    vips_tracked_get_mem initState < W ∧
    (vips_tracked_malloc_owned 1 false ⟨[]⟩ initState =
        (none, ⟨[]⟩, initState) ∧
      ∃ b st1,
        vips_tracked_malloc_owned 1 true ⟨[]⟩ initState =
          (some b, ⟨[b.header]⟩, st1) ∧
        vips_tracked_get_allocs (destroyOwner ⟨[b.header]⟩ st1) =
          vips_tracked_get_allocs initState ∧
        vips_tracked_get_mem (destroyOwner ⟨[b.header]⟩ st1) =
          vips_tracked_get_mem initState) :=
  ⟨by decide, owner_callback_lifecycle 1 initState ⟨[]⟩ (by decide)⟩

/-- C10: `vips_tracked_mem` is an unsigned `size_t`, so over-freeing wraps
the byte counter modulo `2^64` to a huge value instead of going negative:
after one allocation of `n` bytes and two frees of the same pointer from the
initial state, `vips_tracked_get_mem()` is `2^64 - (n + 16)`, which exceeds
the high-water mark; and the guard `vips_tracked_mem < 0` on the unsigned
counter is never true, so the "too much free" warning is unreachable. -/
theorem unsigned_counter_wraps_on_overfree (n : Nat)
    (h : n + HEADER_SIZE < 2 ^ 63) :
    (∃ b st1,
      vips_tracked_malloc n true initState = (some b, st1, []) ∧
      vips_tracked_get_mem
          (vips_tracked_free b.header
            (vips_tracked_free b.header st1).1).1 =
        W - (n + HEADER_SIZE) ∧
      vips_tracked_get_mem_highwater
          (vips_tracked_free b.header
            (vips_tracked_free b.header st1).1).1 <
        vips_tracked_get_mem
          (vips_tracked_free b.header
            (vips_tracked_free b.header st1).1).1) ∧
    ∀ (total : Nat) (st : TrackedState),
      FreeWarn.tooMuchFree ∉ (vips_tracked_free total st).2 := by
  have hH : HEADER_SIZE = 16 := rfl
  have hWnum : W = 18446744073709551616 := by norm_num [W]
  norm_num at h
  have hlt : (n + HEADER_SIZE) % W = n + HEADER_SIZE :=
    Nat.mod_eq_of_lt (by omega)
  constructor
  · refine ⟨⟨(n + HEADER_SIZE) % W⟩, _, rfl, ?_, ?_⟩
    · show (((0 + (n + HEADER_SIZE) % W) % W +
          (W - ((n + HEADER_SIZE) % W) % W)) % W +
          (W - ((n + HEADER_SIZE) % W) % W)) % W = W - (n + HEADER_SIZE)
      simp only [hlt, Nat.zero_add]
      rw [show n + HEADER_SIZE + (W - (n + HEADER_SIZE)) = W by omega]
      rw [Nat.mod_self, Nat.zero_add]
      exact Nat.mod_eq_of_lt (by omega)
    · show (if (0 : Nat) < (0 + (n + HEADER_SIZE) % W) % W then
            (0 + (n + HEADER_SIZE) % W) % W
          else 0) <
          (((0 + (n + HEADER_SIZE) % W) % W +
            (W - ((n + HEADER_SIZE) % W) % W)) % W +
            (W - ((n + HEADER_SIZE) % W) % W)) % W
      simp only [hlt, Nat.zero_add]
      rw [show n + HEADER_SIZE + (W - (n + HEADER_SIZE)) = W by omega]
      rw [Nat.mod_self, Nat.zero_add]
      rw [Nat.mod_eq_of_lt (show W - (n + HEADER_SIZE) < W by omega)]
      rw [if_pos (show 0 < n + HEADER_SIZE by omega)]
      omega
  · intro total st
    rw [free_warns]
    split
    · simp
    · simp

/-- Witness for C10 at `n = 100`. -/
theorem unsigned_counter_wraps_on_overfree_witness :
    100 + HEADER_SIZE < 2 ^ 63 ∧
    ((∃ b st1,
      vips_tracked_malloc 100 true initState = (some b, st1, []) ∧
      vips_tracked_get_mem
          (vips_tracked_free b.header
            (vips_tracked_free b.header st1).1).1 =
        W - (100 + HEADER_SIZE) ∧
      vips_tracked_get_mem_highwater
          (vips_tracked_free b.header
            (vips_tracked_free b.header st1).1).1 <
        vips_tracked_get_mem
          (vips_tracked_free b.header
            (vips_tracked_free b.header st1).1).1) ∧
    ∀ (total : Nat) (st : TrackedState),
      FreeWarn.tooMuchFree ∉ (vips_tracked_free total st).2) :=
  ⟨by decide, unsigned_counter_wraps_on_overfree 100 (by decide)⟩

/-! Concurrency: invariant preservation for the interleaving semantics. -/

/-- Pointwise bound: a thread never holds more than its remaining weight. -/
theorem pendingVal_le_tweight (th : Thread) : pendingVal th ≤ tweight th :=
  Nat.le_add_right _ _

theorem sum_pendingVal_le_tweight (ts : List Thread) :
    (ts.map pendingVal).sum ≤ (ts.map tweight).sum :=
  List.sum_le_sum fun th _ => pendingVal_le_tweight th

/-- Effect of `List.set` at a valid index on the pending-thread count. -/
theorem pendCount_set (ts : List Thread) (i : Nat) (a b : Thread)
    (h : ts[i]? = some a) :
    pendCount (ts.set i b) + pcount a = pendCount ts + pcount b :=
  sum_map_set pcount ts i a b h

/-- One interleaving step preserves the concurrent accounting invariant. -/
theorem cinv_step (B : Nat) (hB : B < W)
    (p q : List Thread × TrackedState) (hstep : CStep p q)
    (hinv : CInv B p) : CInv B q := by
  obtain ⟨hmem, hwt, hcnt⟩ := hinv
  cases hstep with
  | allocStep ts st i s rest hget =>
    dsimp only at hmem hwt hcnt
    have hpv := sum_map_set pendingVal ts i ⟨none, s :: rest⟩
      ⟨some ((s + HEADER_SIZE) % W), rest⟩ hget
    have htw := sum_map_set tweight ts i ⟨none, s :: rest⟩
      ⟨some ((s + HEADER_SIZE) % W), rest⟩ hget
    have hpc := pendCount_set ts i ⟨none, s :: rest⟩
      ⟨some ((s + HEADER_SIZE) % W), rest⟩ hget
    have hamem : (⟨none, s :: rest⟩ : Thread) ∈ ts := List.getElem?_mem hget
    have hable : tweight ⟨none, s :: rest⟩ ≤ (ts.map tweight).sum :=
      List.single_le_sum (fun x _ => Nat.zero_le x) _
        (List.mem_map_of_mem tweight hamem)
    have hta : tweight ⟨none, s :: rest⟩ = s + HEADER_SIZE + loadOf rest := by
      simp [tweight, pendingVal, loadOf_cons]
    have hsW : s + HEADER_SIZE < W := by
      rw [hta] at hable
      omega
    have hmod : (s + HEADER_SIZE) % W = s + HEADER_SIZE :=
      Nat.mod_eq_of_lt hsW
    have htb : tweight ⟨some ((s + HEADER_SIZE) % W), rest⟩ =
        s + HEADER_SIZE + loadOf rest := by
      simp [tweight, pendingVal, hmod]
    have htw2 : ((ts.set i ⟨some ((s + HEADER_SIZE) % W), rest⟩).map
        tweight).sum = (ts.map tweight).sum := by
      rw [hta, htb] at htw
      omega
    have hpv2 : ((ts.set i ⟨some ((s + HEADER_SIZE) % W), rest⟩).map
        pendingVal).sum = (ts.map pendingVal).sum + (s + HEADER_SIZE) := by
      have hpa : pendingVal (⟨none, s :: rest⟩ : Thread) = 0 := rfl
      have hpb : pendingVal (⟨some ((s + HEADER_SIZE) % W), rest⟩ : Thread) =
          (s + HEADER_SIZE) % W := rfl
      rw [hpa, hpb] at hpv
      omega
    have hbound : (ts.map pendingVal).sum + (s + HEADER_SIZE) < W := by
      have h1 := sum_pendingVal_le_tweight
        (ts.set i ⟨some ((s + HEADER_SIZE) % W), rest⟩)
      rw [hpv2, htw2] at h1
      omega
    refine ⟨?_, ?_, ?_⟩
    · dsimp only
      have ha1 : (allocAcc s st).mem = (st.mem + (s + HEADER_SIZE) % W) % W :=
        rfl
      have heq : (st.mem + (s + HEADER_SIZE) % W) % W =
          (ts.map pendingVal).sum + (s + HEADER_SIZE) := by
        rw [hmod, hmem]
        exact Nat.mod_eq_of_lt hbound
      rw [ha1, heq, hpv2]
    · dsimp only
      rw [htw2]
      exact hwt
    · dsimp only
      have ha2 : (allocAcc s st).allocs = st.allocs + 1 := rfl
      have hca : pcount (⟨none, s :: rest⟩ : Thread) = 0 := rfl
      have hcb : pcount (⟨some ((s + HEADER_SIZE) % W), rest⟩ : Thread) = 1 :=
        rfl
      rw [hca, hcb] at hpc
      rw [ha2, hcnt]
      omega
  | freeStep ts st i t rest hget =>
    dsimp only at hmem hwt hcnt
    have hpv := sum_map_set pendingVal ts i ⟨some t, rest⟩ ⟨none, rest⟩ hget
    have htw := sum_map_set tweight ts i ⟨some t, rest⟩ ⟨none, rest⟩ hget
    have hpc := pendCount_set ts i ⟨some t, rest⟩ ⟨none, rest⟩ hget
    have hpa : pendingVal (⟨some t, rest⟩ : Thread) = t := rfl
    have hpb : pendingVal (⟨none, rest⟩ : Thread) = 0 := rfl
    rw [hpa, hpb] at hpv
    have hta : tweight (⟨some t, rest⟩ : Thread) = t + loadOf rest := rfl
    have htb : tweight (⟨none, rest⟩ : Thread) = loadOf rest := by
      simp [tweight, pendingVal]
    rw [hta, htb] at htw
    have hmemW : st.mem < W := by
      have := sum_pendingVal_le_tweight ts
      omega
    have htle : t ≤ st.mem := by
      rw [hmem]
      omega
    refine ⟨?_, ?_, ?_⟩
    · dsimp only
      have hf1 : ((vips_tracked_free t st).1).mem =
          (st.mem + (W - t % W)) % W := rfl
      rw [hf1, modW_sub st.mem t htle hmemW]
      omega
    · dsimp only
      omega
    · dsimp only
      have hf2 : ((vips_tracked_free t st).1).allocs = st.allocs - 1 := rfl
      have hca : pcount (⟨some t, rest⟩ : Thread) = 1 := rfl
      have hcb : pcount (⟨none, rest⟩ : Thread) = 0 := rfl
      rw [hca, hcb] at hpc
      rw [hf2, hcnt]
      omega

/-- The concurrent accounting invariant holds along every reachable
execution. -/
theorem cinv_reach (B : Nat) (hB : B < W)
    (p q : List Thread × TrackedState)
    (hr : Relation.ReflTransGen CStep p q) (hinv : CInv B p) : CInv B q := by
  induction hr with
  | refl => exact hinv
  | tail _ hstep ih => exact cinv_step B hB _ _ hstep ih

/-- A fresh thread carries its whole script as weight. -/
theorem tweight_fresh (l : List Nat) : tweight ⟨none, l⟩ = loadOf l := by
  simp [tweight, pendingVal]

theorem map_tweight_threadsOf (sizes : List (List Nat)) :
    ((threadsOf sizes).map tweight).sum = (sizes.map loadOf).sum := by
  induction sizes with
  | nil => rfl
  | cons l rest ih =>
    simp only [threadsOf, List.map_cons, List.sum_cons] at ih ⊢
    rw [tweight_fresh, ih]

theorem map_pendingVal_threadsOf (sizes : List (List Nat)) :
    ((threadsOf sizes).map pendingVal).sum = 0 := by
  apply List.sum_eq_zero
  intro x hx
  obtain ⟨th, hth, rfl⟩ := List.mem_map.1 hx
  obtain ⟨l, _, rfl⟩ := List.mem_map.1 hth
  rfl

theorem pendCount_threadsOf (sizes : List (List Nat)) :
    pendCount (threadsOf sizes) = 0 := by
  apply List.sum_eq_zero
  intro x hx
  obtain ⟨th, hth, rfl⟩ := List.mem_map.1 hx
  obtain ⟨l, _, rfl⟩ := List.mem_map.1 hth
  rfl

/-- The invariant holds at the start of any thread pool. -/
theorem cinv_init (sizes : List (List Nat)) :
    CInv ((sizes.map loadOf).sum) (threadsOf sizes, initState) := by
  refine ⟨?_, ?_, ?_⟩
  · dsimp only
    rw [map_pendingVal_threadsOf]
    rfl
  · dsimp only
    rw [map_tweight_threadsOf]
  · dsimp only
    rw [pendCount_threadsOf]
    rfl

/-- C9: for any family of threads, each performing its script of matched
tracked allocate/free pairs, under ANY interleaving of the atomic
lock-protected counter updates, once every thread has completed (nothing
pending, script exhausted) `vips_tracked_get_mem()` is 0 and
`vips_tracked_get_allocs()` is 0.  The hypothesis bounds the total padded
demand by `2^64`, which any physically successful execution satisfies. -/
theorem concurrent_pairs_drain_to_zero (sizes : List (List Nat))
    (ts2 : List Thread) (st2 : TrackedState)
    (hB : (sizes.map loadOf).sum < W)
    (hreach : Relation.ReflTransGen CStep (threadsOf sizes, initState)
      (ts2, st2))
    (hdone : ∀ th ∈ ts2, th.pending = none ∧ th.todo = []) :
    vips_tracked_get_mem st2 = 0 ∧ vips_tracked_get_allocs st2 = 0 := by
  have hinv := cinv_reach _ hB _ _ hreach (cinv_init sizes)
  obtain ⟨hmem, _, hcnt⟩ := hinv
  dsimp only at hmem hcnt
  have hpv0 : (ts2.map pendingVal).sum = 0 := by
    apply List.sum_eq_zero
    intro x hx
    obtain ⟨th, hth, rfl⟩ := List.mem_map.1 hx
    simp [pendingVal, (hdone th hth).1]
  have hc0 : pendCount ts2 = 0 := by
    apply List.sum_eq_zero
    intro x hx
    obtain ⟨th, hth, rfl⟩ := List.mem_map.1 hx
    simp [pcount, (hdone th hth).1]
  constructor
  · show st2.mem = 0
    rw [hmem, hpv0]
  · show st2.allocs = 0
    rw [hcnt, hc0]
    rfl

/-- Witness for C9: one thread performing a single 5-byte allocate/free
pair, interleaved as allocate then free. -/
theorem concurrent_pairs_drain_to_zero_witness :
    vips_tracked_get_mem
        (vips_tracked_free ((5 + HEADER_SIZE) % W) (allocAcc 5 initState)).1 =
      0 ∧
    vips_tracked_get_allocs
        (vips_tracked_free ((5 + HEADER_SIZE) % W) (allocAcc 5 initState)).1 =
      0 :=
  concurrent_pairs_drain_to_zero [[5]]
    (([(⟨none, [5]⟩ : Thread)].set 0
        ⟨some ((5 + HEADER_SIZE) % W), []⟩).set 0 ⟨none, []⟩)
    ((vips_tracked_free ((5 + HEADER_SIZE) % W) (allocAcc 5 initState)).1)
    (by decide)
    (Relation.ReflTransGen.tail
      (Relation.ReflTransGen.tail Relation.ReflTransGen.refl
        (CStep.allocStep [⟨none, [5]⟩] initState 0 5 [] rfl))
      (CStep.freeStep
        ([(⟨none, [5]⟩ : Thread)].set 0 ⟨some ((5 + HEADER_SIZE) % W), []⟩)
        (allocAcc 5 initState) 0 ((5 + HEADER_SIZE) % W) [] rfl))
    (by decide)

end VipsMemory
